import Mathlib

/-!
Shallow embedding of the `sei-split-tranfer` CosmWasm contract
(`src/contract.rs`, `src/helpers.rs`, `src/state.rs`, `src/error.rs`,
`src/msg.rs`) and verification of its specification.

Modelling conventions:
* `Addr` is an opaque string (cosmwasm `Addr`).
* `u128` values are `Nat`s; every addition the contract performs on them is
  modelled with `checkedAdd`, which fails at `2^128`.  CosmWasm contracts are
  built with overflow checks, so an overflowing addition aborts the call; the
  abort is the `ExecResult.trap` outcome, distinct from every `ContractError`.
  Subtractions in the source are guarded (`fee ≤ amount` because
  `fee = amount / 100`, and `quantity ≤ amount` is checked), so plain `Nat`
  subtraction is exact for them.
* The persistent store (`cw_storage_plus` items `STATE`, `FEE` and map
  `AMOUNTS`, plus the `cw2` contract-version item) is a `Storage` record; the
  `AMOUNTS` map is an association list.
* The host applies a failed call atomically: no state change survives an
  error.  Accordingly `ExecResult.err`/`ExecResult.trap` carry no storage —
  a failed call leaves the pre-call storage in force.
* Query handlers receive the storage immutably (`Deps`, not `DepsMut`) and
  return only a value, so they cannot mutate state by construction.
-/

/-- Bech32 addresses are opaque strings at this level of modelling. -/
abbrev Addr := String

/-- A `cosmwasm_std::Coin`: denomination and `u128` amount. -/
structure Coin where
  denom : String
  amount : Nat
deriving DecidableEq, Repr

/-- `cosmwasm_std::MessageInfo`: the caller and the funds attached to the call. -/
structure MessageInfo where
  sender : Addr
  funds : List Coin
deriving DecidableEq, Repr

/-- `state.rs`: the persisted `State` item holding the owner record. -/
structure State where
  owner : Addr
deriving DecidableEq, Repr

/-- A `BankMsg::Send` outgoing transfer instruction. -/
structure BankSend where
  to_address : Addr
  amount : List Coin
deriving DecidableEq, Repr

/-- A `cosmwasm_std::Response`: outgoing bank messages plus attributes. -/
structure Response where
  messages : List BankSend
  attributes : List (String × String)
deriving DecidableEq, Repr

/-- Host-layer storage errors; the contract only ever meets not-found on
`Item.load`/`Map.load` of an absent key. -/
inductive StdError where
  | notFound
deriving DecidableEq, Repr

/-- `error.rs`: the `ContractError` enum. -/
inductive ContractError where
  | Std (e : StdError)
  | Unauthorized
  | ExceededQuantity
  | WrongCoinSent
  | WrongFundCoin (expected got : String)
  | NotOwner
deriving DecidableEq, Repr

/-- The contract's persistent storage: the `cw2` contract-version item
(whether `set_contract_version` ran), the `STATE` item, the `FEE` item and
the `AMOUNTS` map as an association list. -/
structure Storage where
  contractVersionSet : Bool
  state : Option State
  fee : Option Nat
  amounts : List (Addr × Nat)
deriving DecidableEq, Repr

/-- Storage of a freshly deployed, not yet instantiated contract. -/
def Storage.empty : Storage := ⟨false, none, none, []⟩

/-- `Map.may_load` on the association list: first binding wins. -/
def mapLoad : List (Addr × Nat) → Addr → Option Nat
  | [], _ => none
  | (k', v') :: rest, k => if k' = k then some v' else mapLoad rest k

/-- `Map.save`: replace the binding if present, else append it. -/
def mapSave : List (Addr × Nat) → Addr → Nat → List (Addr × Nat)
  | [], k, v => [(k, v)]
  | (k', v') :: rest, k, v =>
      if k' = k then (k, v) :: rest else (k', v') :: mapSave rest k v

/-- `Map.remove`: drop every binding of the key. -/
def mapRemove : List (Addr × Nat) → Addr → List (Addr × Nat)
  | [], _ => []
  | (k', v') :: rest, k =>
      if k' = k then mapRemove rest k else (k', v') :: mapRemove rest k

/-- Outcome of an entry-point call: success with the new storage and
response, a `ContractError` returned by the contract, or an arithmetic
overflow abort (`trap`). -/
inductive ExecResult where
  | ok (storage : Storage) (resp : Response)
  | err (e : ContractError)
  | trap
deriving DecidableEq, Repr

/-- Checked `u128` addition: the overflow-checked `+` of the Rust build. -/
def checkedAdd (a b : Nat) : Option Nat :=
  if a + b < 2 ^ 128 then some (a + b) else none

/-- `helpers.rs` `validate_and_extract_coin`: exactly one coin must be
attached and its denomination must be `"usei"`. -/
def validate_and_extract_coin : List Coin → Except ContractError Coin
  | [c] =>
      if c.denom ≠ "usei" then
        .error (.WrongFundCoin "usei" c.denom)
      else
        .ok c
  | _ => .error .WrongCoinSent

/-- `contract.rs` `send_tokens`: a response with one `BankMsg::Send` and the
`action`/`to` attributes. -/
def send_tokens (to_address : Addr) (amount : List Coin) (action : String) : Response :=
  { messages := [{ to_address := to_address, amount := amount }],
    attributes := [("action", action), ("to", to_address)] }

/-- `contract.rs` `instantiate`: records the contract version, saves the
caller as owner, initialises the fee accumulator to zero; never fails and
emits no messages. -/
def instantiate (storage : Storage) (info : MessageInfo) : ExecResult :=
  .ok { storage with
          contractVersionSet := true
          state := some { owner := info.sender }
          fee := some 0 }
      { messages := [],
        attributes := [("method", "instantiate"), ("owner", info.sender)] }

/-- The `amount` closure passed to `AMOUNTS.update` in `split`: add
`split_amount` to the existing balance, or initialise with it.  The `some`
branch performs a checked `u128` addition. -/
def creditAmount (amounts : List (Addr × Nat)) (recipient : Addr)
    (split_amount : Nat) : Option (List (Addr × Nat)) :=
  match mapLoad amounts recipient with
  | some old_amount =>
      (checkedAdd old_amount split_amount).map (mapSave amounts recipient)
  | none => some (mapSave amounts recipient split_amount)

/-- `contract.rs` `split`: validate the funds, accumulate the 1% fee
(`fee = amount / 100`), credit `(amount - fee) / 2` to each recipient in
turn.  The source binds `fee` and `split_amount` as locals; they are inlined
here. -/
def split (storage : Storage) (info : MessageInfo)
    (recipient1 recipient2 : Addr) : ExecResult :=
  match validate_and_extract_coin info.funds with
  | .error e => .err e
  | .ok sent_coin =>
    match storage.fee with
    | none => .err (.Std .notFound)
    | some fee0 =>
      match checkedAdd fee0 (sent_coin.amount / 100) with
      | none => .trap
      | some total_fee =>
        match creditAmount storage.amounts recipient1
            ((sent_coin.amount - sent_coin.amount / 100) / 2) with
        | none => .trap
        | some amounts1 =>
          match creditAmount amounts1 recipient2
              ((sent_coin.amount - sent_coin.amount / 100) / 2) with
          | none => .trap
          | some amounts2 =>
            .ok { storage with fee := some total_fee, amounts := amounts2 }
               { messages := [], attributes := [("method", "split")] }

/-- `contract.rs` `withdraw_fees`: only the owner may call; pays out the
whole fee accumulator and resets it to zero. -/
def withdraw_fees (storage : Storage) (info : MessageInfo) : ExecResult :=
  match storage.state with
  | none => .err (.Std .notFound)
  | some st =>
    if info.sender ≠ st.owner then
      .err .NotOwner
    else
      match storage.fee with
      | none => .err (.Std .notFound)
      | some amount =>
        .ok { storage with fee := some 0 }
           (send_tokens info.sender [{ denom := "usei", amount := amount }] "withdraw")

/-- `contract.rs` `withdraw`: load the caller's balance (`Map.load`, which
fails when absent); with a quantity, check it and decrement the balance;
without one, remove the entry and pay the whole balance. -/
def withdraw (storage : Storage) (info : MessageInfo)
    (quantity : Option Nat) : ExecResult :=
  match mapLoad storage.amounts info.sender with
  | none => .err (.Std .notFound)
  | some amount =>
    match quantity with
    | some q =>
      if q > amount then
        .err .ExceededQuantity
      else
        .ok { storage with amounts := mapSave storage.amounts info.sender (amount - q) }
           (send_tokens info.sender [{ denom := "usei", amount := q }] "withdraw")
    | none =>
      .ok { storage with amounts := mapRemove storage.amounts info.sender }
         (send_tokens info.sender [{ denom := "usei", amount := amount }] "withdraw")

/-- `msg.rs` `ExecuteMsg`. -/
inductive ExecuteMsg where
  | Split (recipient1 recipient2 : Addr)
  | Withdraw (quantity : Option Nat)
  | WithdrawFees
deriving DecidableEq, Repr

/-- `contract.rs` `execute`: dispatch on the message. -/
def execute (storage : Storage) (info : MessageInfo) : ExecuteMsg → ExecResult
  | .Split r1 r2 => split storage info r1 r2
  | .Withdraw q => withdraw storage info q
  | .WithdrawFees => withdraw_fees storage info

/-- `contract.rs` `query_state`: return the `STATE` item. -/
def query_state (storage : Storage) : Except StdError State :=
  match storage.state with
  | some s => .ok s
  | none => .error .notFound

/-- `contract.rs` `withdrawable_amount`: `may_load` the balance, defaulting
to zero when absent. -/
def withdrawable_amount (storage : Storage) (address : Addr) : Except StdError Nat :=
  match mapLoad storage.amounts address with
  | some amount => .ok amount
  | none => .ok 0

/-- Total amount across a coin list (the funds attached to a call). -/
def fundsAmount (funds : List Coin) : Nat := (funds.map Coin.amount).sum

/-- Total amount emitted by a response's outgoing transfer instructions. -/
def respOut (r : Response) : Nat :=
  (r.messages.map (fun m => fundsAmount m.amount)).sum

/-- Funds counted as received: only the funds attached to a `Split` call
become part of the contract's accounted holdings. -/
def attachedIn (msg : ExecuteMsg) (info : MessageInfo) : Nat :=
  match msg with
  | .Split _ _ => fundsAmount info.funds
  | _ => 0

/-- Sum of all stored balances. -/
def sumBalances (m : List (Addr × Nat)) : Nat := (m.map Prod.snd).sum

/-- States reachable from instantiation by successful execute calls,
together with the running totals of funds attached to successful `Split`
calls (`tin`) and of funds emitted in outgoing transfers (`tout`). -/
inductive Reachable : Storage → Nat → Nat → Prop where
  | instantiated (info : MessageInfo) (st : Storage) (resp : Response) :
      instantiate Storage.empty info = .ok st resp → Reachable st 0 0
  | step (st : Storage) (tin tout : Nat) (info : MessageInfo) (msg : ExecuteMsg)
      (st' : Storage) (resp : Response) :
      Reachable st tin tout → execute st info msg = .ok st' resp →
      Reachable st' (tin + attachedIn msg info) (tout + respOut resp)

/-! ### Association-list lemmas -/

theorem mapLoad_mapSave_self (m : List (Addr × Nat)) (k : Addr) (v : Nat) :
    mapLoad (mapSave m k v) k = some v := by
  induction m with
  | nil => simp [mapSave, mapLoad]
  | cons p rest ih =>
      obtain ⟨k', v'⟩ := p
      by_cases h : k' = k <;> simp [mapSave, mapLoad, h, ih]

theorem mapLoad_mapSave_ne (m : List (Addr × Nat)) (k k' : Addr) (v : Nat)
    (h : k' ≠ k) : mapLoad (mapSave m k v) k' = mapLoad m k' := by
  induction m with
  | nil => simp [mapSave, mapLoad, Ne.symm h]
  | cons p rest ih =>
      obtain ⟨k'', v''⟩ := p
      by_cases h2 : k'' = k <;> by_cases h3 : k'' = k' <;>
        simp_all [mapSave, mapLoad]

theorem mapLoad_mapRemove_self (m : List (Addr × Nat)) (k : Addr) :
    mapLoad (mapRemove m k) k = none := by
  induction m with
  | nil => simp [mapRemove, mapLoad]
  | cons p rest ih =>
      obtain ⟨k', v'⟩ := p
      by_cases h : k' = k <;> simp [mapRemove, mapLoad, h, ih]

theorem mapLoad_mapRemove_ne (m : List (Addr × Nat)) (k k' : Addr)
    (h : k' ≠ k) : mapLoad (mapRemove m k) k' = mapLoad m k' := by
  induction m with
  | nil => simp [mapRemove]
  | cons p rest ih =>
      obtain ⟨k'', v''⟩ := p
      by_cases h2 : k'' = k <;> by_cases h3 : k'' = k' <;>
        simp_all [mapRemove, mapLoad]

theorem sumBalances_nil : sumBalances [] = 0 := rfl

theorem sumBalances_cons (k : Addr) (v : Nat) (rest : List (Addr × Nat)) :
    sumBalances ((k, v) :: rest) = v + sumBalances rest := by
  simp [sumBalances]

theorem sumBalances_mapSave (m : List (Addr × Nat)) (k : Addr) (v : Nat) :
    sumBalances (mapSave m k v) + (mapLoad m k).getD 0 = sumBalances m + v := by
  induction m with
  | nil => simp [mapSave, mapLoad, sumBalances]
  | cons p rest ih =>
      obtain ⟨k', v'⟩ := p
      by_cases h : k' = k
      · simp [mapSave, mapLoad, h, sumBalances_cons]
        omega
      · simp [mapSave, mapLoad, h, sumBalances_cons]
        omega

theorem sumBalances_mapRemove_le (m : List (Addr × Nat)) (k : Addr) :
    sumBalances (mapRemove m k) ≤ sumBalances m := by
  induction m with
  | nil => simp [mapRemove]
  | cons p rest ih =>
      obtain ⟨k', v'⟩ := p
      by_cases h : k' = k <;>
        simp [mapRemove, h, sumBalances_cons] <;> omega

theorem sumBalances_mapRemove (m : List (Addr × Nat)) (k : Addr) (b : Nat)
    (h : mapLoad m k = some b) :
    sumBalances (mapRemove m k) + b ≤ sumBalances m := by
  induction m with
  | nil => simp [mapLoad] at h
  | cons p rest ih =>
      obtain ⟨k', v'⟩ := p
      by_cases h2 : k' = k
      · simp [mapLoad, h2] at h
        subst h
        have := sumBalances_mapRemove_le rest k
        simp [mapRemove, h2, sumBalances_cons]
        omega
      · simp [mapLoad, h2] at h
        have := ih h
        simp [mapRemove, h2, sumBalances_cons]
        omega

theorem mapLoad_le_sumBalances (m : List (Addr × Nat)) (k : Addr) (b : Nat)
    (h : mapLoad m k = some b) : b ≤ sumBalances m := by
  induction m with
  | nil => simp [mapLoad] at h
  | cons p rest ih =>
      obtain ⟨k', v'⟩ := p
      by_cases h2 : k' = k
      · simp [mapLoad, h2] at h
        simp [sumBalances_cons]
        omega
      · simp [mapLoad, h2] at h
        have := ih h
        simp [sumBalances_cons]
        omega

/-! ### Arithmetic and handler inversion lemmas -/

theorem checkedAdd_eq_some (a b c : Nat) (h : checkedAdd a b = some c) :
    c = a + b ∧ a + b < 2 ^ 128 := by
  unfold checkedAdd at h
  by_cases h2 : a + b < 2 ^ 128 <;> simp [h2] at h <;> omega

theorem checkedAdd_of_lt (a b : Nat) (h : a + b < 2 ^ 128) :
    checkedAdd a b = some (a + b) := by
  unfold checkedAdd
  rw [if_pos h]

theorem validate_ok_inv (funds : List Coin) (c : Coin)
    (h : validate_and_extract_coin funds = .ok c) :
    funds = [c] ∧ c.denom = "usei" := by
  match funds with
  | [] => simp [validate_and_extract_coin] at h
  | [c'] =>
      by_cases hd : c'.denom = "usei"
      · simp [validate_and_extract_coin, hd] at h
        subst h
        exact ⟨rfl, hd⟩
      · simp [validate_and_extract_coin, hd] at h
  | c' :: c'' :: rest => simp [validate_and_extract_coin] at h

theorem creditAmount_eq_some (m m' : List (Addr × Nat)) (k : Addr) (s : Nat)
    (h : creditAmount m k s = some m') :
    m' = mapSave m k ((mapLoad m k).getD 0 + s) := by
  unfold creditAmount at h
  cases h2 : mapLoad m k with
  | none => simp [h2] at h; simp [h2, ← h]
  | some old =>
      simp [h2] at h
      obtain ⟨v, hv, hm⟩ := h
      obtain ⟨rfl, _⟩ := checkedAdd_eq_some _ _ _ hv
      simp [h2, ← hm]

theorem creditAmount_ok (m : List (Addr × Nat)) (k : Addr) (s : Nat)
    (h : (mapLoad m k).getD 0 + s < 2 ^ 128) :
    creditAmount m k s = some (mapSave m k ((mapLoad m k).getD 0 + s)) := by
  unfold creditAmount
  cases h2 : mapLoad m k with
  | none => simp
  | some old =>
      rw [h2] at h
      simp at h
      simp [checkedAdd_of_lt _ _ h]

theorem creditAmount_sum (m m' : List (Addr × Nat)) (k : Addr) (s : Nat)
    (h : creditAmount m k s = some m') :
    sumBalances m' = sumBalances m + s := by
  have hm := creditAmount_eq_some m m' k s h
  subst hm
  have := sumBalances_mapSave m k ((mapLoad m k).getD 0 + s)
  omega

/-- Inversion of a successful `split` call into its constituent effects. -/
theorem split_ok_inv (storage : Storage) (info : MessageInfo) (r1 r2 : Addr)
    (st' : Storage) (resp : Response)
    (h : split storage info r1 r2 = .ok st' resp) :
    ∃ c f tf a1 a2,
      validate_and_extract_coin info.funds = .ok c ∧
      storage.fee = some f ∧
      checkedAdd f (c.amount / 100) = some tf ∧
      creditAmount storage.amounts r1 ((c.amount - c.amount / 100) / 2) = some a1 ∧
      creditAmount a1 r2 ((c.amount - c.amount / 100) / 2) = some a2 ∧
      st' = { storage with fee := some tf, amounts := a2 } ∧
      resp = { messages := [], attributes := [("method", "split")] } := by
  unfold split at h
  split at h
  · simp at h
  · split at h
    · simp at h
    · split at h
      · simp at h
      · split at h
        · simp at h
        · split at h
          · simp at h
          · simp only [ExecResult.ok.injEq] at h
            obtain ⟨hst, hresp⟩ := h
            exact ⟨_, _, _, _, _, by assumption, by assumption, by assumption,
              by assumption, by assumption, hst.symm, hresp.symm⟩

/-- Inversion of a successful `withdraw` call. -/
theorem withdraw_ok_inv (storage : Storage) (info : MessageInfo)
    (quantity : Option Nat) (st' : Storage) (resp : Response)
    (h : withdraw storage info quantity = .ok st' resp) :
    ∃ b, mapLoad storage.amounts info.sender = some b ∧
      ((∃ q, quantity = some q ∧ q ≤ b ∧
          st' = { storage with amounts := mapSave storage.amounts info.sender (b - q) } ∧
          resp = send_tokens info.sender [{ denom := "usei", amount := q }] "withdraw") ∨
       (quantity = none ∧
          st' = { storage with amounts := mapRemove storage.amounts info.sender } ∧
          resp = send_tokens info.sender [{ denom := "usei", amount := b }] "withdraw")) := by
  unfold withdraw at h
  split at h
  · simp at h
  · rename_i b hb
    refine ⟨b, hb, ?_⟩
    split at h
    · rename_i q
      split at h
      · simp at h
      · rename_i hq
        simp only [ExecResult.ok.injEq] at h
        exact Or.inl ⟨q, rfl, by omega, h.1.symm, h.2.symm⟩
    · simp only [ExecResult.ok.injEq] at h
      exact Or.inr ⟨rfl, h.1.symm, h.2.symm⟩

/-- Inversion of a successful `withdraw_fees` call. -/
theorem withdraw_fees_ok_inv (storage : Storage) (info : MessageInfo)
    (st' : Storage) (resp : Response)
    (h : withdraw_fees storage info = .ok st' resp) :
    ∃ ow f, storage.state = some { owner := ow } ∧ info.sender = ow ∧
      storage.fee = some f ∧
      st' = { storage with fee := some 0 } ∧
      resp = send_tokens info.sender [{ denom := "usei", amount := f }] "withdraw" := by
  unfold withdraw_fees at h
  split at h
  · simp at h
  · rename_i st hst
    split at h
    · simp at h
    · rename_i hsender
      split at h
      · simp at h
      · rename_i f hf
        simp only [ExecResult.ok.injEq] at h
        refine ⟨st.owner, f, ?_, not_not.mp hsender, hf, h.1.symm, h.2.symm⟩
        rw [hst]

theorem respOut_send_tokens (a : Addr) (d : String) (n : Nat) (act : String) :
    respOut (send_tokens a [{ denom := d, amount := n }] act) = n := by
  simp [respOut, send_tokens, fundsAmount]

theorem respOut_split_resp :
    respOut { messages := [], attributes := [("method", "split")] } = 0 := rfl

/-- C2: in every state reachable from instantiation by successful `Split`,
`Withdraw` and `WithdrawFees` calls, the sum of stored balances plus the fee
accumulator is at most the total funds attached to successful `Split` calls
minus the total emitted in outgoing transfer instructions (stated
additively, `balances + fee + out ≤ in`, to avoid truncated subtraction). -/
theorem reachable_accounting (st : Storage) (tin tout : Nat)
    (h : Reachable st tin tout) :
    sumBalances st.amounts + st.fee.getD 0 + tout ≤ tin := by
  induction h with
  | instantiated info st0 resp h0 =>
      unfold instantiate at h0
      simp only [ExecResult.ok.injEq] at h0
      obtain ⟨hst, _⟩ := h0
      subst hst
      simp [Storage.empty, sumBalances]
  | step st tin tout info msg st' resp hr hexec ih =>
      cases msg with
      | Split r1 r2 =>
          obtain ⟨c, f, tf, a1, a2, hv, hf, hadd, hc1, hc2, hst, hresp⟩ :=
            split_ok_inv st info r1 r2 st' resp hexec
          obtain ⟨hfunds, _⟩ := validate_ok_inv info.funds c hv
          obtain ⟨rfl, _⟩ := checkedAdd_eq_some _ _ _ hadd
          have h1 := creditAmount_sum _ _ _ _ hc1
          have h2 := creditAmount_sum _ _ _ _ hc2
          subst hst hresp
          have hin : attachedIn (ExecuteMsg.Split r1 r2) info = c.amount := by
            simp [attachedIn, hfunds, fundsAmount]
          have hfee_le : c.amount / 100 ≤ c.amount := Nat.div_le_self _ _
          have hsplit : (c.amount - c.amount / 100) / 2 * 2 ≤ c.amount - c.amount / 100 :=
            Nat.div_mul_le_self _ _
          rw [hf] at ih
          simp only [Option.getD_some] at ih
          rw [hin, respOut_split_resp]
          dsimp only
          simp only [Option.getD_some]
          omega
      | Withdraw q =>
          obtain ⟨b, hb, hcase⟩ := withdraw_ok_inv st info q st' resp hexec
          have hble := mapLoad_le_sumBalances _ _ _ hb
          rcases hcase with ⟨qv, rfl, hqle, hst, hresp⟩ | ⟨rfl, hst, hresp⟩
          · subst hst hresp
            have hsum := sumBalances_mapSave st.amounts info.sender (b - qv)
            rw [hb] at hsum
            simp only [Option.getD_some] at hsum
            rw [respOut_send_tokens]
            simp only [attachedIn]
            omega
          · subst hst hresp
            have hsum := sumBalances_mapRemove st.amounts info.sender b hb
            rw [respOut_send_tokens]
            simp only [attachedIn]
            omega
      | WithdrawFees =>
          obtain ⟨ow, f, hst0, hsend, hf, hst, hresp⟩ :=
            withdraw_fees_ok_inv st info st' resp hexec
          subst hst hresp
          rw [hf] at ih
          simp only [Option.getD_some] at ih
          rw [respOut_send_tokens]
          simp only [attachedIn]
          simp only [Option.getD_some]
          omega

/-- C1 (amended: stated for two distinct recipient addresses): a `Split`
call funded with exactly one `"usei"` coin of amount `A` succeeds (absent
`u128` overflow), computes `fee = A / 100`, credits `(A - fee) / 2` to each
recipient on top of its previous balance (zero when absent), and raises the
fee accumulator by exactly `fee`. -/
theorem split_credits_each_recipient (storage : Storage) (info : MessageInfo)
    (r1 r2 : Addr) (A f : Nat)
    (hfunds : info.funds = [{ denom := "usei", amount := A }])
    (hfee : storage.fee = some f)
    (hne : r1 ≠ r2)
    (hoverflow : f + A / 100 < 2 ^ 128)
    (hb1 : (mapLoad storage.amounts r1).getD 0 + (A - A / 100) / 2 < 2 ^ 128)
    (hb2 : (mapLoad storage.amounts r2).getD 0 + (A - A / 100) / 2 < 2 ^ 128) :
    ∃ st' resp, split storage info r1 r2 = .ok st' resp ∧
      st'.fee = some (f + A / 100) ∧
      (mapLoad st'.amounts r1).getD 0 =
        (mapLoad storage.amounts r1).getD 0 + (A - A / 100) / 2 ∧
      (mapLoad st'.amounts r2).getD 0 =
        (mapLoad storage.amounts r2).getD 0 + (A - A / 100) / 2 := by
  have hv : validate_and_extract_coin info.funds =
      .ok { denom := "usei", amount := A } := by
    rw [hfunds]; simp [validate_and_extract_coin]
  have hadd : checkedAdd f (A / 100) = some (f + A / 100) :=
    checkedAdd_of_lt _ _ hoverflow
  have hc1 := creditAmount_ok storage.amounts r1 ((A - A / 100) / 2) hb1
  have hload2 : mapLoad
      (mapSave storage.amounts r1 ((mapLoad storage.amounts r1).getD 0 + (A - A / 100) / 2)) r2 =
      mapLoad storage.amounts r2 :=
    mapLoad_mapSave_ne _ _ _ _ (Ne.symm hne)
  have hc2 := creditAmount_ok
    (mapSave storage.amounts r1 ((mapLoad storage.amounts r1).getD 0 + (A - A / 100) / 2))
    r2 ((A - A / 100) / 2) (by rw [hload2]; exact hb2)
  rw [hload2] at hc2
  have heq : split storage info r1 r2 = .ok
      { storage with
          fee := some (f + A / 100)
          amounts := mapSave
            (mapSave storage.amounts r1 ((mapLoad storage.amounts r1).getD 0 + (A - A / 100) / 2))
            r2 ((mapLoad storage.amounts r2).getD 0 + (A - A / 100) / 2) }
      { messages := [], attributes := [("method", "split")] } := by
    simp only [split, hv, hfee, hadd, hc1, hc2]
  exact ⟨_, _, heq, rfl,
    by simp [mapLoad_mapSave_ne _ _ _ _ hne, mapLoad_mapSave_self],
    by simp [mapLoad_mapSave_self]⟩

/-- Witness for C1 at the spec's concrete scenario: 200 `usei` split between
`person1` and `person2` from a fresh instance credits 99 to each and 2 to
the fee accumulator. -/
theorem split_credits_each_recipient_witness :
    ∃ st' resp,
      split ⟨true, some ⟨"creator"⟩, some 0, []⟩
          ⟨"sender", [{ denom := "usei", amount := 200 }]⟩ "person1" "person2" =
        .ok st' resp ∧
      st'.fee = some (0 + 200 / 100) ∧
      (mapLoad st'.amounts "person1").getD 0 =
        (mapLoad ([] : List (Addr × Nat)) "person1").getD 0 + (200 - 200 / 100) / 2 ∧
      (mapLoad st'.amounts "person2").getD 0 =
        (mapLoad ([] : List (Addr × Nat)) "person2").getD 0 + (200 - 200 / 100) / 2 :=
  split_credits_each_recipient ⟨true, some ⟨"creator"⟩, some 0, []⟩
    ⟨"sender", [{ denom := "usei", amount := 200 }]⟩ "person1" "person2" 200 0
    rfl rfl (by decide) (by decide) (by decide) (by decide)

/-- C1 as frozen is false when the two recipient parameters coincide: with
200 `usei` and both recipients `person1`, the stored balance rises to 198,
not by the per-recipient share 99. -/
theorem split_same_recipient_refutes_c1 :
    ∃ st' resp,
      split ⟨true, some ⟨"creator"⟩, some 0, []⟩
          ⟨"sender", [{ denom := "usei", amount := 200 }]⟩ "person1" "person1" =
        .ok st' resp ∧
      (mapLoad st'.amounts "person1").getD 0 ≠
        (mapLoad ([] : List (Addr × Nat)) "person1").getD 0 + (200 - 200 / 100) / 2 :=
  ⟨_, _, rfl, by decide⟩

/-- C10: when `recipient1 = recipient2`, the single address is credited
twice, so its balance grows by `2 * ((A - fee) / 2)`. -/
theorem split_same_recipient_double_credit (storage : Storage)
    (info : MessageInfo) (r : Addr) (A f : Nat)
    (hfunds : info.funds = [{ denom := "usei", amount := A }])
    (hfee : storage.fee = some f)
    (hoverflow : f + A / 100 < 2 ^ 128)
    (hb : (mapLoad storage.amounts r).getD 0 + 2 * ((A - A / 100) / 2) < 2 ^ 128) :
    ∃ st' resp, split storage info r r = .ok st' resp ∧
      (mapLoad st'.amounts r).getD 0 =
        (mapLoad storage.amounts r).getD 0 + 2 * ((A - A / 100) / 2) := by
  have hv : validate_and_extract_coin info.funds =
      .ok { denom := "usei", amount := A } := by
    rw [hfunds]; simp [validate_and_extract_coin]
  have hadd : checkedAdd f (A / 100) = some (f + A / 100) :=
    checkedAdd_of_lt _ _ hoverflow
  have hc1 := creditAmount_ok storage.amounts r ((A - A / 100) / 2)
    (by omega)
  have hload1 : mapLoad
      (mapSave storage.amounts r ((mapLoad storage.amounts r).getD 0 + (A - A / 100) / 2)) r =
      some ((mapLoad storage.amounts r).getD 0 + (A - A / 100) / 2) :=
    mapLoad_mapSave_self _ _ _
  have hc2 := creditAmount_ok
    (mapSave storage.amounts r ((mapLoad storage.amounts r).getD 0 + (A - A / 100) / 2))
    r ((A - A / 100) / 2) (by rw [hload1]; simp only [Option.getD_some]; omega)
  rw [hload1] at hc2
  simp only [Option.getD_some] at hc2
  have heq : split storage info r r = .ok
      { storage with
          fee := some (f + A / 100)
          amounts := mapSave
            (mapSave storage.amounts r ((mapLoad storage.amounts r).getD 0 + (A - A / 100) / 2))
            r ((mapLoad storage.amounts r).getD 0 + (A - A / 100) / 2 + (A - A / 100) / 2) }
      { messages := [], attributes := [("method", "split")] } := by
    simp only [split, hv, hfee, hadd, hc1, hc2]
  refine ⟨_, _, heq, ?_⟩
  simp only [mapLoad_mapSave_self]
  simp only [Option.getD_some]
  omega

/-- Witness for C10: 200 `usei` with both recipients `person1` leaves that
balance at `0 + 2 * 99 = 198`. -/
theorem split_same_recipient_double_credit_witness :
    ∃ st' resp,
      split ⟨true, some ⟨"creator"⟩, some 0, []⟩
          ⟨"sender", [{ denom := "usei", amount := 200 }]⟩ "person1" "person1" =
        .ok st' resp ∧
      (mapLoad st'.amounts "person1").getD 0 =
        (mapLoad ([] : List (Addr × Nat)) "person1").getD 0 + 2 * ((200 - 200 / 100) / 2) :=
  split_same_recipient_double_credit ⟨true, some ⟨"creator"⟩, some 0, []⟩
    ⟨"sender", [{ denom := "usei", amount := 200 }]⟩ "person1" 200 0
    rfl rfl (by decide) (by decide)

theorem validate_wrongCoinSent_iff (funds : List Coin) :
    validate_and_extract_coin funds = .error .WrongCoinSent ↔ funds.length ≠ 1 := by
  match funds with
  | [] => simp [validate_and_extract_coin]
  | [c] => by_cases hd : c.denom = "usei" <;> simp [validate_and_extract_coin, hd]
  | a :: b :: rest => simp [validate_and_extract_coin]

theorem validate_wrongFundCoin_iff (funds : List Coin) (e g : String) :
    validate_and_extract_coin funds = .error (.WrongFundCoin e g) ↔
      ∃ c, funds = [c] ∧ c.denom ≠ "usei" ∧ e = "usei" ∧ g = c.denom := by
  match funds with
  | [] => simp [validate_and_extract_coin]
  | [c] =>
      by_cases hd : c.denom = "usei"
      · simp [validate_and_extract_coin, hd]
      · simp only [validate_and_extract_coin, if_pos hd, Except.error.injEq,
          ContractError.WrongFundCoin.injEq]
        constructor
        · rintro ⟨he, hg⟩
          exact ⟨c, rfl, hd, he.symm, hg.symm⟩
        · rintro ⟨c', hc', hd', he, hg⟩
          obtain rfl : c' = c := by
            have := hc'
            simp at this
            exact this.symm
          exact ⟨he.symm, hg.symm⟩
  | a :: b :: rest => simp [validate_and_extract_coin]

/-- A failing `split` either propagates a storage not-found error or the
coin-validation error. -/
theorem split_err_cases (storage : Storage) (info : MessageInfo)
    (r1 r2 : Addr) (e : ContractError)
    (h : split storage info r1 r2 = .err e) :
    e = .Std .notFound ∨ validate_and_extract_coin info.funds = .error e := by
  unfold split at h
  split at h
  · rename_i e' heq
    simp only [ExecResult.err.injEq] at h
    subst h
    exact Or.inr heq
  · split at h
    · simp only [ExecResult.err.injEq] at h
      subst h
      exact Or.inl rfl
    · split at h
      · simp at h
      · split at h
        · simp at h
        · split at h
          · simp at h
          · simp at h

/-- C3: `split` fails with `WrongCoinSent` exactly when the attached funds
are not a single coin entry, and with `WrongFundCoin "usei" g` exactly when
a single coin of denomination `g ≠ "usei"` is attached.  A failed call
changes no stored state: the host discards the call's effects, which the
model expresses by `ExecResult.err` carrying no storage. -/
theorem split_coin_validation (storage : Storage) (info : MessageInfo)
    (r1 r2 : Addr) :
    (split storage info r1 r2 = .err .WrongCoinSent ↔ info.funds.length ≠ 1) ∧
    (∀ e g, split storage info r1 r2 = .err (.WrongFundCoin e g) ↔
      ∃ c, info.funds = [c] ∧ c.denom ≠ "usei" ∧ e = "usei" ∧ g = c.denom) := by
  constructor
  · constructor
    · intro h
      rcases split_err_cases _ _ _ _ _ h with h' | h'
      · simp at h'
      · exact (validate_wrongCoinSent_iff info.funds).mp h'
    · intro h
      have hval := (validate_wrongCoinSent_iff info.funds).mpr h
      simp only [split, hval]
  · intro e g
    constructor
    · intro h
      rcases split_err_cases _ _ _ _ _ h with h' | h'
      · simp at h'
      · exact (validate_wrongFundCoin_iff info.funds e g).mp h'
    · intro h
      have hval := (validate_wrongFundCoin_iff info.funds e g).mpr h
      simp only [split, hval]

/-- C4: a `Withdraw` with explicit quantity `q ≤ b` (balance `b`) keeps the
entry at `b - q` (even when zero), emits exactly one transfer of `q` to the
caller, and touches nothing else: the fee accumulator and owner record are
carried over unchanged and every other balance is untouched. -/
theorem withdraw_partial (storage : Storage) (info : MessageInfo) (b q : Nat)
    (hb : mapLoad storage.amounts info.sender = some b)
    (hq : q ≤ b) :
    withdraw storage info (some q) =
      .ok { storage with amounts := mapSave storage.amounts info.sender (b - q) }
         (send_tokens info.sender [{ denom := "usei", amount := q }] "withdraw") ∧
    mapLoad (mapSave storage.amounts info.sender (b - q)) info.sender = some (b - q) ∧
    (∀ a, a ≠ info.sender →
      mapLoad (mapSave storage.amounts info.sender (b - q)) a = mapLoad storage.amounts a) ∧
    (send_tokens info.sender [{ denom := "usei", amount := q }] "withdraw").messages =
      [{ to_address := info.sender, amount := [{ denom := "usei", amount := q }] }] := by
  have hnot : ¬ q > b := by omega
  exact ⟨by simp [withdraw, hb, hnot], mapLoad_mapSave_self _ _ _,
    fun a ha => mapLoad_mapSave_ne _ _ _ _ ha, rfl⟩

/-- Witness for C4: balance 99, withdrawal of 50 leaves the entry at 49 and
emits one transfer of 50. -/
theorem withdraw_partial_witness :
    withdraw ⟨true, some ⟨"creator"⟩, some 0, [("person1", 99)]⟩ ⟨"person1", []⟩ (some 50) =
      .ok { (⟨true, some ⟨"creator"⟩, some 0, [("person1", 99)]⟩ : Storage) with
              amounts := mapSave [("person1", 99)] "person1" (99 - 50) }
         (send_tokens "person1" [{ denom := "usei", amount := 50 }] "withdraw") ∧
    mapLoad (mapSave [("person1", 99)] "person1" (99 - 50)) "person1" = some (99 - 50) ∧
    (∀ a, a ≠ "person1" →
      mapLoad (mapSave [("person1", 99)] "person1" (99 - 50)) a =
        mapLoad [("person1", 99)] a) ∧
    (send_tokens "person1" [{ denom := "usei", amount := 50 }] "withdraw").messages =
      [{ to_address := "person1", amount := [{ denom := "usei", amount := 50 }] }] :=
  withdraw_partial ⟨true, some ⟨"creator"⟩, some 0, [("person1", 99)]⟩
    ⟨"person1", []⟩ 99 50 (by decide) (by decide)

/-- C5: a `Withdraw` with explicit quantity `q > b` fails with
`ExceededQuantity`; the failure returns no new storage and no response, so
no state change and no transfer occur. -/
theorem withdraw_exceeded (storage : Storage) (info : MessageInfo) (b q : Nat)
    (hb : mapLoad storage.amounts info.sender = some b)
    (hq : q > b) :
    withdraw storage info (some q) = .err .ExceededQuantity := by
  simp [withdraw, hb, hq]

/-- Witness for C5: balance 99, requesting 100 fails. -/
theorem withdraw_exceeded_witness :
    withdraw ⟨true, some ⟨"creator"⟩, some 0, [("person1", 99)]⟩ ⟨"person1", []⟩ (some 100) =
      .err .ExceededQuantity :=
  withdraw_exceeded ⟨true, some ⟨"creator"⟩, some 0, [("person1", 99)]⟩
    ⟨"person1", []⟩ 99 100 (by decide) (by decide)

/-- C6: a `Withdraw` without quantity on balance `b` removes the caller's
entry, emits exactly one transfer of `b` to the caller, and the
withdrawable-amount query on the resulting storage returns zero. -/
theorem withdraw_all (storage : Storage) (info : MessageInfo) (b : Nat)
    (hb : mapLoad storage.amounts info.sender = some b) :
    withdraw storage info none =
      .ok { storage with amounts := mapRemove storage.amounts info.sender }
         (send_tokens info.sender [{ denom := "usei", amount := b }] "withdraw") ∧
    mapLoad (mapRemove storage.amounts info.sender) info.sender = none ∧
    withdrawable_amount
      { storage with amounts := mapRemove storage.amounts info.sender }
      info.sender = .ok 0 ∧
    (send_tokens info.sender [{ denom := "usei", amount := b }] "withdraw").messages =
      [{ to_address := info.sender, amount := [{ denom := "usei", amount := b }] }] := by
  refine ⟨by simp [withdraw, hb], mapLoad_mapRemove_self _ _, ?_, rfl⟩
  simp [withdrawable_amount, mapLoad_mapRemove_self]

/-- Witness for C6: full withdrawal of a 49 balance removes the entry and
the query then returns zero. -/
theorem withdraw_all_witness :
    withdraw ⟨true, some ⟨"creator"⟩, some 0, [("person1", 49)]⟩ ⟨"person1", []⟩ none =
      .ok { (⟨true, some ⟨"creator"⟩, some 0, [("person1", 49)]⟩ : Storage) with
              amounts := mapRemove [("person1", 49)] "person1" }
         (send_tokens "person1" [{ denom := "usei", amount := 49 }] "withdraw") ∧
    mapLoad (mapRemove [("person1", 49)] "person1") "person1" = none ∧
    withdrawable_amount
      { (⟨true, some ⟨"creator"⟩, some 0, [("person1", 49)]⟩ : Storage) with
          amounts := mapRemove [("person1", 49)] "person1" }
      "person1" = .ok 0 ∧
    (send_tokens "person1" [{ denom := "usei", amount := 49 }] "withdraw").messages =
      [{ to_address := "person1", amount := [{ denom := "usei", amount := 49 }] }] :=
  withdraw_all ⟨true, some ⟨"creator"⟩, some 0, [("person1", 49)]⟩
    ⟨"person1", []⟩ 49 (by decide)

/-- C7: a `Withdraw` (with or without quantity) by a caller with no balance
entry fails with the not-found storage error — failing atomically, with no
state change or transfer — while the withdrawable-amount query for the same
address succeeds with zero. -/
theorem withdraw_no_entry (storage : Storage) (info : MessageInfo)
    (hb : mapLoad storage.amounts info.sender = none) :
    (∀ quantity, withdraw storage info quantity = .err (.Std .notFound)) ∧
    withdrawable_amount storage info.sender = .ok 0 :=
  ⟨fun quantity => by simp [withdraw, hb], by simp [withdrawable_amount, hb]⟩

/-- Witness for C7: `person2` has no entry; both withdrawal forms fail with
not-found and the query returns zero. -/
theorem withdraw_no_entry_witness :
    (∀ quantity,
      withdraw ⟨true, some ⟨"creator"⟩, some 0, [("person1", 99)]⟩ ⟨"person2", []⟩ quantity =
        .err (.Std .notFound)) ∧
    withdrawable_amount ⟨true, some ⟨"creator"⟩, some 0, [("person1", 99)]⟩ "person2" =
      .ok 0 :=
  withdraw_no_entry ⟨true, some ⟨"creator"⟩, some 0, [("person1", 99)]⟩
    ⟨"person2", []⟩ (by decide)

/-- C8: `withdraw_fees` fails with `NotOwner` exactly when the caller is not
the persisted owner (the failure carries no storage, so no state change and
no transfer); called by the owner it resets the fee accumulator to zero and
emits one transfer of the whole previously accumulated fee, leaving the
balance mapping and the owner record unchanged. -/
theorem withdraw_fees_owner_auth (storage : Storage) (info : MessageInfo)
    (ow : Addr) (f : Nat)
    (hst : storage.state = some { owner := ow })
    (hf : storage.fee = some f) :
    (withdraw_fees storage info = .err .NotOwner ↔ info.sender ≠ ow) ∧
    (info.sender = ow →
      withdraw_fees storage info =
        .ok { storage with fee := some 0 }
           (send_tokens info.sender [{ denom := "usei", amount := f }] "withdraw") ∧
      ({ storage with fee := some 0 } : Storage).amounts = storage.amounts ∧
      ({ storage with fee := some 0 } : Storage).state = storage.state) := by
  constructor
  · constructor
    · intro h hcontra
      simp [withdraw_fees, hst, hcontra, hf] at h
    · intro h
      simp [withdraw_fees, hst, h]
  · intro h
    exact ⟨by simp [withdraw_fees, hst, h, hf], rfl, rfl⟩

/-- Witness for C8 on a fresh instance with 2 fee units accumulated: the
non-owner branch of the equivalence and the owner payout both hold at
concrete inputs. -/
theorem withdraw_fees_owner_auth_witness :
    ((withdraw_fees ⟨true, some ⟨"creator"⟩, some 2, []⟩ ⟨"creator", []⟩ =
        .err .NotOwner ↔ ("creator" : Addr) ≠ "creator") ∧
     (("creator" : Addr) = "creator" →
       withdraw_fees ⟨true, some ⟨"creator"⟩, some 2, []⟩ ⟨"creator", []⟩ =
         .ok { (⟨true, some ⟨"creator"⟩, some 2, []⟩ : Storage) with fee := some 0 }
            (send_tokens "creator" [{ denom := "usei", amount := 2 }] "withdraw") ∧
       ({ (⟨true, some ⟨"creator"⟩, some 2, []⟩ : Storage) with fee := some 0 } : Storage).amounts =
         (⟨true, some ⟨"creator"⟩, some 2, []⟩ : Storage).amounts ∧
       ({ (⟨true, some ⟨"creator"⟩, some 2, []⟩ : Storage) with fee := some 0 } : Storage).state =
         (⟨true, some ⟨"creator"⟩, some 2, []⟩ : Storage).state)) :=
  withdraw_fees_owner_auth ⟨true, some ⟨"creator"⟩, some 2, []⟩ ⟨"creator", []⟩
    "creator" 2 rfl rfl

/-- C9: instantiation always succeeds, persists the caller as owner,
initialises the fee accumulator to zero and emits no outgoing transfer;
and no successful execute call ever rewrites the owner record.  Query
handlers cannot write state at all: they receive the storage immutably and
return only a value. -/
theorem instantiate_and_owner_immutable :
    (∀ storage info,
      instantiate storage info =
        .ok { storage with
                contractVersionSet := true
                state := some { owner := info.sender }
                fee := some 0 }
           { messages := [],
             attributes := [("method", "instantiate"), ("owner", info.sender)] }) ∧
    (∀ storage info msg st' resp,
      execute storage info msg = .ok st' resp → st'.state = storage.state) := by
  refine ⟨fun storage info => rfl, ?_⟩
  intro storage info msg st' resp h
  cases msg with
  | Split r1 r2 =>
      obtain ⟨c, f, tf, a1, a2, _, _, _, _, _, hst, _⟩ :=
        split_ok_inv storage info r1 r2 st' resp h
      subst hst
      rfl
  | Withdraw q =>
      obtain ⟨b, hb, hcase⟩ := withdraw_ok_inv storage info q st' resp h
      rcases hcase with ⟨qv, _, _, hst, _⟩ | ⟨_, hst, _⟩ <;> (subst hst; rfl)
  | WithdrawFees =>
      obtain ⟨ow, f, _, _, _, hst, _⟩ := withdraw_fees_ok_inv storage info st' resp h
      subst hst
      rfl

/-- Witness for C9: a concrete successful withdrawal leaves the owner
record untouched. -/
theorem instantiate_and_owner_immutable_witness :
    (⟨true, some ⟨"creator"⟩, some 0, [("person1", 49)]⟩ : Storage).state =
      (⟨true, some ⟨"creator"⟩, some 0, [("person1", 99)]⟩ : Storage).state :=
  instantiate_and_owner_immutable.2
    ⟨true, some ⟨"creator"⟩, some 0, [("person1", 99)]⟩ ⟨"person1", []⟩
    (.Withdraw (some 50))
    ⟨true, some ⟨"creator"⟩, some 0, [("person1", 49)]⟩
    (send_tokens "person1" [{ denom := "usei", amount := 50 }] "withdraw")
    (by decide)

/-- Witness for C2: the invariant holds in the freshly instantiated state. -/
theorem reachable_accounting_witness :
    sumBalances (⟨true, some ⟨"creator"⟩, some 0, []⟩ : Storage).amounts +
      (⟨true, some ⟨"creator"⟩, some 0, []⟩ : Storage).fee.getD 0 + 0 ≤ 0 :=
  reachable_accounting ⟨true, some ⟨"creator"⟩, some 0, []⟩ 0 0
    (Reachable.instantiated ⟨"creator", []⟩ _ _ rfl)

/-- C1 (amended: stated for two distinct recipient addresses): every
successful `Split` call funded with exactly one `"usei"` coin of amount `A`
increments each recipient's stored balance (zero when absent) by exactly
`(A - A / 100) / 2` and the fee accumulator by exactly the computed fee
`A / 100`. -/
theorem split_credits_distinct_recipients (storage st' : Storage)
    (info : MessageInfo) (r1 r2 : Addr) (resp : Response) (A : Nat)
    (hfunds : info.funds = [{ denom := "usei", amount := A }])
    (hne : r1 ≠ r2)
    (h : split storage info r1 r2 = .ok st' resp) :
    ∃ f, storage.fee = some f ∧
      st'.fee = some (f + A / 100) ∧
      (mapLoad st'.amounts r1).getD 0 =
        (mapLoad storage.amounts r1).getD 0 + (A - A / 100) / 2 ∧
      (mapLoad st'.amounts r2).getD 0 =
        (mapLoad storage.amounts r2).getD 0 + (A - A / 100) / 2 := by
  obtain ⟨c, f, tf, a1, a2, hv, hf, hadd, hc1, hc2, hst, hresp⟩ :=
    split_ok_inv storage info r1 r2 st' resp h
  obtain ⟨hfc, _⟩ := validate_ok_inv info.funds c hv
  rw [hfunds] at hfc
  obtain rfl : c = { denom := "usei", amount := A } := by
    injection hfc with h1 _
    exact h1.symm
  obtain ⟨rfl, _⟩ := checkedAdd_eq_some _ _ _ hadd
  have e1 := creditAmount_eq_some _ _ _ _ hc1
  have e2 := creditAmount_eq_some _ _ _ _ hc2
  subst e1
  subst e2
  subst hst
  refine ⟨f, hf, rfl, ?_, ?_⟩
  · show (mapLoad (mapSave _ r2 _) r1).getD 0 = _
    rw [mapLoad_mapSave_ne _ _ _ _ hne, mapLoad_mapSave_self]
    rfl
  · show (mapLoad (mapSave _ r2 _) r2).getD 0 = _
    rw [mapLoad_mapSave_self]
    rw [mapLoad_mapSave_ne _ _ _ _ (Ne.symm hne)]
    rfl

/-- Witness for the amended C1 at the spec scenario: the successful split of
200 `usei` credits 99 to each of the two distinct recipients and 2 in fees. -/
theorem split_credits_distinct_recipients_witness :
    ∃ f, (⟨true, some ⟨"creator"⟩, some 0, []⟩ : Storage).fee = some f ∧
      (⟨true, some ⟨"creator"⟩, some 2,
          [("person1", 99), ("person2", 99)]⟩ : Storage).fee = some (f + 200 / 100) ∧
      (mapLoad (⟨true, some ⟨"creator"⟩, some 2,
          [("person1", 99), ("person2", 99)]⟩ : Storage).amounts "person1").getD 0 =
        (mapLoad (⟨true, some ⟨"creator"⟩, some 0, []⟩ : Storage).amounts "person1").getD 0 +
          (200 - 200 / 100) / 2 ∧
      (mapLoad (⟨true, some ⟨"creator"⟩, some 2,
          [("person1", 99), ("person2", 99)]⟩ : Storage).amounts "person2").getD 0 =
        (mapLoad (⟨true, some ⟨"creator"⟩, some 0, []⟩ : Storage).amounts "person2").getD 0 +
          (200 - 200 / 100) / 2 :=
  split_credits_distinct_recipients ⟨true, some ⟨"creator"⟩, some 0, []⟩
    ⟨true, some ⟨"creator"⟩, some 2, [("person1", 99), ("person2", 99)]⟩
    ⟨"sender", [{ denom := "usei", amount := 200 }]⟩ "person1" "person2"
    ⟨[], [("method", "split")]⟩ 200 rfl (by decide) (by decide)

/-- Witness for C3: with no funds attached the `WrongCoinSent`
characterisation and the `WrongFundCoin` characterisation hold at a concrete
call. -/
theorem split_coin_validation_witness :
    (split ⟨true, some ⟨"creator"⟩, some 0, []⟩ ⟨"sender", []⟩ "person1" "person2" =
        .err .WrongCoinSent ↔ ([] : List Coin).length ≠ 1) ∧
    (∀ e g,
      split ⟨true, some ⟨"creator"⟩, some 0, []⟩ ⟨"sender", []⟩ "person1" "person2" =
          .err (.WrongFundCoin e g) ↔
        ∃ c, ([] : List Coin) = [c] ∧ c.denom ≠ "usei" ∧ e = "usei" ∧ g = c.denom) :=
  split_coin_validation ⟨true, some ⟨"creator"⟩, some 0, []⟩ ⟨"sender", []⟩
    "person1" "person2"
